import Mathlib

/-!
Verification of the `renewable` library: a concurrency-safe renewable-value
cache with two coordination strategies (on-demand and soft/hard).

The Go source is shallowly embedded as follows.

* `time.Duration` (an `int64` count of nanoseconds) is embedded as `Int`;
  time instants (`time.Time`) are embedded as `Nat` ticks of a global clock,
  with the zero `time.Time` (`IsZero`) embedded as `Option.none`.
* `interface{}` values and `error` values are embedded as `Option Int`:
  `none` is Go `nil`, `some k` is an arbitrary non-nil payload.
* The production function `ProduceFunc` is an external collaborator whose
  outcome is arbitrary; in the sequential model its outcome is a parameter,
  and in the concurrent transition systems it is chosen nondeterministically
  at the production step.
* Each strategy's `Get` is embedded twice: a sequential function
  (`onDemandGetSeq`) for the single-caller functional claims, and a
  small-step transition system over interleaved threads for the
  concurrency claims.  In the transition systems a production step that
  finishes is merged with the store of its result into one atomic step
  whose clock reading becomes the stored `moment` (the spec's
  "stores value/error/timestamp together as one logical unit").
-/

/-- Go `time.Duration`: a signed count of ticks. -/
abbrev Duration := Int

/-- A Go `interface{}` value: `none` is `nil`. -/
abbrev Val := Option Int

/-- A Go `error` value: `none` is `nil`. -/
abbrev Err := Option Int

/-- Embedding of `periods.Periods` (src/unnamed/part_002): a pair of
durations, one for the last-success case and one for the last-failure case. -/
structure Periods where
  Default : Duration
  Error : Duration
deriving DecidableEq

/-- Embedding of the Go errors returned by constructors and by
`Periods.Validate`: `ErrContextNil` and `ErrProduceNil` are the two
package-level error values, the rest embed the `fmt.Errorf` messages
(carrying the durations interpolated into the message). -/
inductive renewErr
| errContextNil
| errProduceNil
| errDefaultPeriodNegative (d : Duration)
| errErrorPeriodNegative (d : Duration)
| errDefaultHardLessThanSoft (hard soft : Duration)
| errErrorHardLessThanSoft (hard soft : Duration)
deriving DecidableEq

/-- Embedding of `Periods.Validate`: default period must be zero or
positive, then error period must be zero or positive. -/
def Periods.Validate (pp : Periods) : Option renewErr :=
  if pp.Default < 0 then some (.errDefaultPeriodNegative pp.Default)
  else if pp.Error < 0 then some (.errErrorPeriodNegative pp.Error)
  else none

/-- Embedding of `Periods.Period`: the error period if the cached error is
non-nil, else the default period. -/
def Periods.Period (pp : Periods) (err : Err) : Duration :=
  match err with
  | some _ => pp.Error
  | none => pp.Default

/-- Embedding of `periods.New`. -/
def Periods.New (defaultPeriod errorPeriod : Duration) : Periods :=
  ⟨defaultPeriod, errorPeriod⟩

/-- Embedding of `periods.Same`. -/
def Periods.Same (period : Duration) : Periods :=
  ⟨period, period⟩

/-- Embedding of the `result` struct (src/unnamed/part_002): the last
produced value-or-error plus the moment it was produced.  The zero value
has `moment = none` (Go: the zero `time.Time`, for which `IsZero` holds). -/
structure result where
  val : Val := none
  err : Err := none
  moment : Option Nat := none
deriving DecidableEq

/-- Embedding of `result.isValidAt`:
`!r.moment.IsZero() && r.moment.Add(periods.Period(r.err)).After(moment)`. -/
def result.isValidAt (r : result) (moment : Nat) (periods : Periods) : Bool :=
  match r.moment with
  | none => false
  | some m => decide ((m : Int) + periods.Period r.err > (moment : Int))

/-- Embedding of `result.expand`. -/
def result.expand (r : result) : Val × Err :=
  (r.val, r.err)

/-- Embedding of `produceResult` / `result.produce`: store the produced
value and error verbatim, together with the production moment, as one
unit.  The produce call's outcome `(v, e)` is a parameter (the production
function is an arbitrary external collaborator), and `now` is the clock
reading at production completion. -/
def produceResult (now : Nat) (v : Val) (e : Err) : result :=
  { val := v, err := e, moment := some now }

/-- Go `context.Context` is opaque to this library (only its nil-ness is
ever inspected), embedded as `Unit`. -/
abbrev Ctx := Unit

/-- Embedding of `context.Background()`: a non-nil context. -/
def background : Ctx := ()

/-- Embedding of `ProduceFunc` for the construction-time claims: only the
function's nil-ness matters there, its behaviour is opaque. -/
abbrev ProduceFunc := Ctx → Val × Err

/-- The data captured by a successfully constructed on-demand instance. -/
structure onDemandInst where
  ctx : Ctx
  produce : ProduceFunc
  periods : Periods

/-- Embedding of the `OnDemand` constructor (src/on_demand.go): nil
context, then nil producer, then period validation, else success.
Nil-able Go arguments are embedded as `Option`. -/
def OnDemand (ctx : Option Ctx) (produce : Option ProduceFunc) (pp : Periods) :
    Except renewErr onDemandInst :=
  match ctx with
  | none => .error .errContextNil
  | some c =>
    match produce with
    | none => .error .errProduceNil
    | some p =>
      match pp.Validate with
      | some e => .error e
      | none => .ok ⟨c, p, pp⟩

/-- Embedding of `OnDemandNoCtx`: `OnDemand(context.Background(), ...)`. -/
def OnDemandNoCtx (produce : Option ProduceFunc) (pp : Periods) :
    Except renewErr onDemandInst :=
  OnDemand (some background) produce pp

/-- The data captured by a successfully constructed soft/hard instance. -/
structure softHardInst where
  ctx : Ctx
  produce : ProduceFunc
  soft : Periods
  hard : Periods

/-- Embedding of the `SoftHard` constructor (src/unnamed/part_001): nil
context, then nil producer, then validation of the soft periods, then the
two hard-not-less-than-soft checks, else success.  Note the source
validates only `soft` and relies on `hard ≥ soft` for non-negativity of
`hard`. -/
def SoftHard (ctx : Option Ctx) (produce : Option ProduceFunc)
    (soft hard : Periods) : Except renewErr softHardInst :=
  match ctx with
  | none => .error .errContextNil
  | some c =>
    match produce with
    | none => .error .errProduceNil
    | some p =>
      match soft.Validate with
      | some e => .error e
      | none =>
        if hard.Default < soft.Default then
          .error (.errDefaultHardLessThanSoft hard.Default soft.Default)
        else if hard.Error < soft.Error then
          .error (.errErrorHardLessThanSoft hard.Error soft.Error)
        else .ok ⟨c, p, soft, hard⟩

/-- Embedding of `SoftHardNoCtx`: `SoftHard(context.Background(), ...)`. -/
def SoftHardNoCtx (produce : Option ProduceFunc) (soft hard : Periods) :
    Except renewErr softHardInst :=
  SoftHard (some background) produce soft hard

/-- The mutable state of an on-demand instance in the single-caller
(sequential) model: the one cached `result`. -/
structure odSeqState where
  res : result
deriving DecidableEq

/-- Sequential (single-caller) model of `onDemand.Get`: with no concurrent
writer the double-checked re-read under the write lock sees the same state
as the read-locked check, so `Get` collapses to: return the cached result
if it is valid now, otherwise produce (outcome `(v, e)`), store the fresh
result and return it.  The third component reports whether the production
function was invoked. -/
def onDemandGetSeq (pp : Periods) (s : odSeqState) (now : Nat) (v : Val) (e : Err) :
    odSeqState × (Val × Err) × Bool :=
  if s.res.isValidAt now pp then (s, s.res.expand, false)
  else (⟨produceResult now v e⟩, (produceResult now v e).expand, true)

/-! ## The on-demand strategy as an interleaved transition system

`onDemand.Get` (src/on_demand.go) with a `sync.RWMutex`: acquire the read
lock; if the cached result is valid now, return it; otherwise acquire the
write lock, re-check, and if still invalid run the production function
while holding the write lock, overwrite the cached result as one unit and
return it.  Each thread is a program counter; the shared state is the one
`result` cell, the reader count / writer owner of the lock, and a global
clock advanced by an autonomous tick step. -/

/-- Thread identifiers. -/
abbrev TId := Nat

/-- Pointwise update of a thread map. -/
def upd {α : Type} (f : TId → α) (t : TId) (v : α) : TId → α :=
  fun u => if u = t then v else f u

theorem upd_same {α : Type} (f : TId → α) (t : TId) (v : α) : upd f t v t = v := by
  simp [upd]

theorem upd_other {α : Type} (f : TId → α) (t u : TId) (v : α) (h : u ≠ t) :
    upd f t v u = f u := by
  simp [upd, h]

/-- Program counter of a thread inside `onDemand.Get`.
`ret r` means the call has returned `r.expand()`. -/
inductive ODPc
| start
| rlocked
| relock
| wlocked
| producing
| ret (r : result)
deriving DecidableEq

/-- Global state of an on-demand instance under concurrent callers.
`threads t = none` means `t` is not currently inside a `Get` call. -/
structure ODState where
  cell : result
  readers : Nat
  writer : Option TId
  clock : Nat
  threads : TId → Option ODPc

/-- One atomic action of thread `t` inside `onDemand.Get`.

* `arrive`: a new `Get` call begins.
* `rlock`: `r.lock.RLock()` — blocks while a writer holds the lock.
* `rcheckHit`/`rcheckMiss`: `r.get()` under the read lock plus `RUnlock`;
  on a hit the checked result is returned (`res.expand()`).
* `wlock`: `r.lock.Lock()` — blocks while any reader or writer holds it.
* `wcheckHit`/`wcheckMiss`: the double-check `res = r.get()` under the
  write lock; a hit unlocks and returns.
* `produceDone`: `r.result.produce(...)` completes with outcome `(v, e)`:
  the cell is overwritten as one unit with the production moment, the
  write lock is released and the fresh result returned.  Production is in
  flight exactly while the thread sits at `producing`. -/
inductive ODStep (pp : Periods) (t : TId) : ODState → ODState → Prop
| arrive (s : ODState) :
    s.threads t = none →
    ODStep pp t s { s with threads := upd s.threads t (some .start) }
| rlock (s : ODState) :
    s.threads t = some .start → s.writer = none →
    ODStep pp t s { s with readers := s.readers + 1,
                           threads := upd s.threads t (some .rlocked) }
| rcheckHit (s : ODState) :
    s.threads t = some .rlocked → s.cell.isValidAt s.clock pp = true →
    ODStep pp t s { s with readers := s.readers - 1,
                           threads := upd s.threads t (some (.ret s.cell)) }
| rcheckMiss (s : ODState) :
    s.threads t = some .rlocked → s.cell.isValidAt s.clock pp = false →
    ODStep pp t s { s with readers := s.readers - 1,
                           threads := upd s.threads t (some .relock) }
| wlock (s : ODState) :
    s.threads t = some .relock → s.writer = none → s.readers = 0 →
    ODStep pp t s { s with writer := some t,
                           threads := upd s.threads t (some .wlocked) }
| wcheckHit (s : ODState) :
    s.threads t = some .wlocked → s.cell.isValidAt s.clock pp = true →
    ODStep pp t s { s with writer := none,
                           threads := upd s.threads t (some (.ret s.cell)) }
| wcheckMiss (s : ODState) :
    s.threads t = some .wlocked → s.cell.isValidAt s.clock pp = false →
    ODStep pp t s { s with threads := upd s.threads t (some .producing) }
| produceDone (s : ODState) (v : Val) (e : Err) :
    s.threads t = some .producing →
    ODStep pp t s { s with cell := produceResult s.clock v e,
                           writer := none,
                           threads := upd s.threads t
                             (some (.ret (produceResult s.clock v e))) }

/-- Interleaving: either some thread steps, or the clock ticks. -/
inductive ODGlobal (pp : Periods) : ODState → ODState → Prop
| thread (t : TId) (s s' : ODState) : ODStep pp t s s' → ODGlobal pp s s'
| tick (s : ODState) : ODGlobal pp s { s with clock := s.clock + 1 }

/-- The initial state of a freshly constructed on-demand instance: an
empty `result{}` cell (moment unset), a free lock, no calls in progress. -/
def ODInit (s : ODState) : Prop :=
  s.cell = {} ∧ s.readers = 0 ∧ s.writer = none ∧ ∀ t, s.threads t = none

/-- Reachable states of the on-demand system. -/
inductive ODReach (pp : Periods) : ODState → Prop
| init (s : ODState) : ODInit s → ODReach pp s
| step (s s' : ODState) : ODReach pp s → ODGlobal pp s s' → ODReach pp s'

/-- Exclusion invariant: a thread at the write-locked check or producing
holds the write lock. -/
def ODExcl (s : ODState) : Prop :=
  ∀ t, (s.threads t = some .wlocked ∨ s.threads t = some .producing) →
    s.writer = some t


theorem odExcl_step (pp : Periods) (s s' : ODState) (hg : ODGlobal pp s s')
    (ih : ODExcl s) : ODExcl s' := by
  cases hg with
  | tick => exact ih
  | thread u =>
    rename_i hstep
    cases hstep with
    | arrive hu =>
      intro t ht
      by_cases htu : t = u
      · subst htu; simp [upd] at ht
      · simp only [upd_other _ _ _ _ htu] at ht; exact ih t ht
    | rlock hu hw =>
      intro t ht
      by_cases htu : t = u
      · subst htu; simp [upd] at ht
      · simp only [upd_other _ _ _ _ htu] at ht; exact ih t ht
    | rcheckHit hu hv =>
      intro t ht
      by_cases htu : t = u
      · subst htu; simp [upd] at ht
      · simp only [upd_other _ _ _ _ htu] at ht; exact ih t ht
    | rcheckMiss hu hv =>
      intro t ht
      by_cases htu : t = u
      · subst htu; simp [upd] at ht
      · simp only [upd_other _ _ _ _ htu] at ht; exact ih t ht
    | wlock hu hw hr =>
      intro t ht
      by_cases htu : t = u
      · subst htu; rfl
      · simp only [upd_other _ _ _ _ htu] at ht
        have := ih t ht
        rw [hw] at this
        exact absurd this (by simp)
    | wcheckHit hu hv =>
      intro t ht
      by_cases htu : t = u
      · subst htu; simp [upd] at ht
      · simp only [upd_other _ _ _ _ htu] at ht
        have h1 := ih t ht
        have h2 := ih u (Or.inl hu)
        rw [h2] at h1
        exact absurd (Option.some.inj h1) (Ne.symm htu)
    | wcheckMiss hu hv =>
      intro t ht
      by_cases htu : t = u
      · subst htu; exact ih t (Or.inl hu)
      · simp only [upd_other _ _ _ _ htu] at ht; exact ih t ht
    | produceDone v e hu =>
      intro t ht
      by_cases htu : t = u
      · subst htu; simp [upd] at ht
      · simp only [upd_other _ _ _ _ htu] at ht
        have h1 := ih t ht
        have h2 := ih u (Or.inr hu)
        rw [h2] at h1
        exact absurd (Option.some.inj h1) (Ne.symm htu)

theorem odExcl_invariant (pp : Periods) (s : ODState) (h : ODReach pp s) :
    ODExcl s := by
  induction h with
  | init s hinit =>
    intro t ht
    rcases hinit with ⟨-, -, -, hth⟩
    rcases ht with ht | ht <;> simp [hth t] at ht
  | step s s' hr hg ih => exact odExcl_step pp s s' hg ih

/-! ## The soft/hard strategy as an interleaved transition system

`softHard.Get` (src/unnamed/part_001): the shared state is the
`atomic.Value` result cell (`none` until the first store), the `state`
flag (`false` = IDLE, `true` = REFRESHING), the mutex paired with the
condition variable, and the global clock.  Program counters follow the
source line by line:

* entry: one atomic step performs `r.result.Load()`, `now := time.Now()`
  and the soft/hard zone decision;
* within-hard zone: `midCAS` is the `CompareAndSwapUint32(&r.state, 0, 1)`
  attempt; on success `midWon` re-loads the result (the Go
  `if res = r.result.Load().(result); ...` re-assigns `res`, so the value
  returned afterwards is the re-loaded one) and re-checks soft validity at
  the `now` captured at entry; if fresh, `midLock`/`midReset` take the
  mutex, reset the flag to IDLE, broadcast and return without producing;
  otherwise `updateAsync` spawns a detached task and the stale re-loaded
  result is returned;
* the detached task: `taskProduce` is the in-flight production,
  `taskStore` its completion merged with the `r.result.Store` into one
  atomic step stamping the clock as the moment, then `taskStoreDone` /
  `taskReset` take the mutex, reset the flag and broadcast;
* past-hard (blocking) path: `bLock` takes the mutex (held until return —
  the deferred unlock runs at function exit), `bCheck` is the soft
  re-check, `bCAS`/`bWaitLoop`/`bBlocked` the CAS loop around
  `condition.Wait` (a waiter releases the mutex while blocked and
  re-acquires it on wake-up; wake-ups are modelled as possible at any
  time, a safe superset of broadcast-driven wake-ups), `bRecheck` the
  post-CAS re-check with a fresh `now`, `bProduce` the in-flight inline
  production, `bStore`/`bFinish` its completion, store, flag reset,
  broadcast and return.

`retF res` / `retB t0 res` mean the call has returned `res.expand()`;
`retB` additionally records the clock `t0` at which the call entered the
blocking path (its entry step), a ghost observation used to state
freshness. -/

/-- Program counter of a thread inside `softHard.Get` or inside the
detached refresh task spawned by `updateAsync`. -/
inductive SHPc
| getStart
| midCAS (res : result) (now : Nat)
| midWon (res : result) (now : Nat)
| midLock (res : result)
| midReset (res : result)
| retF (res : result)
| bLock (t0 : Nat)
| bCheck (t0 : Nat)
| bCAS (t0 : Nat)
| bWaitLoop (t0 : Nat)
| bBlocked (t0 : Nat)
| bRecheck (t0 : Nat)
| bProduce (t0 : Nat)
| bFinish (t0 : Nat) (res : result)
| retB (t0 : Nat) (res : result)
| taskProduce
| taskStoreDone
| taskReset
| taskDone
deriving DecidableEq

/-- Global state of a soft/hard instance under concurrent callers. -/
structure SHState where
  cell : Option result
  flag : Bool
  mtx : Option TId
  clock : Nat
  threads : TId → Option SHPc

/-- One atomic action of thread `t` in the soft/hard system. -/
inductive SHStep (soft hard : Periods) (t : TId) : SHState → SHState → Prop
| arrive (s : SHState) :
    s.threads t = none →
    SHStep soft hard t s { s with threads := upd s.threads t (some .getStart) }
| getNoRes (s : SHState) :
    s.threads t = some .getStart → s.cell = none →
    SHStep soft hard t s
      { s with threads := upd s.threads t (some (.bLock s.clock)) }
| getFresh (s : SHState) (res : result) :
    s.threads t = some .getStart → s.cell = some res →
    res.isValidAt s.clock soft = true →
    SHStep soft hard t s { s with threads := upd s.threads t (some (.retF res)) }
| getMid (s : SHState) (res : result) :
    s.threads t = some .getStart → s.cell = some res →
    res.isValidAt s.clock soft = false → res.isValidAt s.clock hard = true →
    SHStep soft hard t s
      { s with threads := upd s.threads t (some (.midCAS res s.clock)) }
| getHardExpired (s : SHState) (res : result) :
    s.threads t = some .getStart → s.cell = some res →
    res.isValidAt s.clock soft = false → res.isValidAt s.clock hard = false →
    SHStep soft hard t s
      { s with threads := upd s.threads t (some (.bLock s.clock)) }
| midCASWin (s : SHState) (res : result) (now : Nat) :
    s.threads t = some (.midCAS res now) → s.flag = false →
    SHStep soft hard t s
      { s with flag := true, threads := upd s.threads t (some (.midWon res now)) }
| midCASFail (s : SHState) (res : result) (now : Nat) :
    s.threads t = some (.midCAS res now) → s.flag = true →
    SHStep soft hard t s { s with threads := upd s.threads t (some (.retF res)) }
| midWonFresh (s : SHState) (res res2 : result) (now : Nat) :
    s.threads t = some (.midWon res now) → s.cell = some res2 →
    res2.isValidAt now soft = true →
    SHStep soft hard t s
      { s with threads := upd s.threads t (some (.midLock res2)) }
| midWonStale (s : SHState) (res res2 : result) (now : Nat) (u : TId) :
    s.threads t = some (.midWon res now) → s.cell = some res2 →
    res2.isValidAt now soft = false → s.threads u = none →
    SHStep soft hard t s
      { s with threads := upd (upd s.threads t (some (.retF res2)))
                            u (some .taskProduce) }
| midLockAcq (s : SHState) (res : result) :
    s.threads t = some (.midLock res) → s.mtx = none →
    SHStep soft hard t s
      { s with mtx := some t, threads := upd s.threads t (some (.midReset res)) }
| midResetStep (s : SHState) (res : result) :
    s.threads t = some (.midReset res) →
    SHStep soft hard t s
      { s with flag := false, mtx := none,
               threads := upd s.threads t (some (.retF res)) }
| taskStore (s : SHState) (v : Val) (e : Err) :
    s.threads t = some .taskProduce →
    SHStep soft hard t s
      { s with cell := some (produceResult s.clock v e),
               threads := upd s.threads t (some .taskStoreDone) }
| taskLockAcq (s : SHState) :
    s.threads t = some .taskStoreDone → s.mtx = none →
    SHStep soft hard t s
      { s with mtx := some t, threads := upd s.threads t (some .taskReset) }
| taskResetStep (s : SHState) :
    s.threads t = some .taskReset →
    SHStep soft hard t s
      { s with flag := false, mtx := none,
               threads := upd s.threads t (some .taskDone) }
| bLockAcq (s : SHState) (t0 : Nat) :
    s.threads t = some (.bLock t0) → s.mtx = none →
    SHStep soft hard t s
      { s with mtx := some t, threads := upd s.threads t (some (.bCheck t0)) }
| bCheckFresh (s : SHState) (t0 : Nat) (res : result) :
    s.threads t = some (.bCheck t0) → s.cell = some res →
    res.isValidAt s.clock soft = true →
    SHStep soft hard t s
      { s with mtx := none, threads := upd s.threads t (some (.retB t0 res)) }
| bCheckNone (s : SHState) (t0 : Nat) :
    s.threads t = some (.bCheck t0) → s.cell = none →
    SHStep soft hard t s { s with threads := upd s.threads t (some (.bCAS t0)) }
| bCheckStale (s : SHState) (t0 : Nat) (res : result) :
    s.threads t = some (.bCheck t0) → s.cell = some res →
    res.isValidAt s.clock soft = false →
    SHStep soft hard t s { s with threads := upd s.threads t (some (.bCAS t0)) }
| bCASWin (s : SHState) (t0 : Nat) :
    s.threads t = some (.bCAS t0) → s.flag = false →
    SHStep soft hard t s
      { s with flag := true, threads := upd s.threads t (some (.bRecheck t0)) }
| bCASFail (s : SHState) (t0 : Nat) :
    s.threads t = some (.bCAS t0) → s.flag = true →
    SHStep soft hard t s
      { s with threads := upd s.threads t (some (.bWaitLoop t0)) }
| bWaitSleep (s : SHState) (t0 : Nat) :
    s.threads t = some (.bWaitLoop t0) → s.flag = true →
    SHStep soft hard t s
      { s with mtx := none, threads := upd s.threads t (some (.bBlocked t0)) }
| bWaitDone (s : SHState) (t0 : Nat) :
    s.threads t = some (.bWaitLoop t0) → s.flag = false →
    SHStep soft hard t s { s with threads := upd s.threads t (some (.bCAS t0)) }
| bWake (s : SHState) (t0 : Nat) :
    s.threads t = some (.bBlocked t0) → s.mtx = none →
    SHStep soft hard t s
      { s with mtx := some t, threads := upd s.threads t (some (.bWaitLoop t0)) }
| bRecheckFresh (s : SHState) (t0 : Nat) (res : result) :
    s.threads t = some (.bRecheck t0) → s.cell = some res →
    res.isValidAt s.clock soft = true →
    SHStep soft hard t s
      { s with flag := false, mtx := none,
               threads := upd s.threads t (some (.retB t0 res)) }
| bRecheckMid (s : SHState) (t0 : Nat) (res : result) (u : TId) :
    s.threads t = some (.bRecheck t0) → s.cell = some res →
    res.isValidAt s.clock soft = false → res.isValidAt s.clock hard = true →
    s.threads u = none →
    SHStep soft hard t s
      { s with mtx := none,
               threads := upd (upd s.threads t (some (.retB t0 res)))
                            u (some .taskProduce) }
| bRecheckNone (s : SHState) (t0 : Nat) :
    s.threads t = some (.bRecheck t0) → s.cell = none →
    SHStep soft hard t s
      { s with threads := upd s.threads t (some (.bProduce t0)) }
| bRecheckStale (s : SHState) (t0 : Nat) (res : result) :
    s.threads t = some (.bRecheck t0) → s.cell = some res →
    res.isValidAt s.clock soft = false → res.isValidAt s.clock hard = false →
    SHStep soft hard t s
      { s with threads := upd s.threads t (some (.bProduce t0)) }
| bStore (s : SHState) (t0 : Nat) (v : Val) (e : Err) :
    s.threads t = some (.bProduce t0) →
    SHStep soft hard t s
      { s with cell := some (produceResult s.clock v e),
               threads := upd s.threads t
                 (some (.bFinish t0 (produceResult s.clock v e))) }
| bFinishStep (s : SHState) (t0 : Nat) (res : result) :
    s.threads t = some (.bFinish t0 res) →
    SHStep soft hard t s
      { s with flag := false, mtx := none,
               threads := upd s.threads t (some (.retB t0 res)) }

/-- Interleaving for the soft/hard system: a thread steps or the clock
ticks. -/
inductive SHGlobal (soft hard : Periods) : SHState → SHState → Prop
| thread (t : TId) (s s' : SHState) :
    SHStep soft hard t s s' → SHGlobal soft hard s s'
| tick (s : SHState) : SHGlobal soft hard s { s with clock := s.clock + 1 }

/-- Initial state of a freshly constructed soft/hard instance: nothing
stored yet, flag IDLE, mutex free, no calls in progress. -/
def SHInit (s : SHState) : Prop :=
  s.cell = none ∧ s.flag = false ∧ s.mtx = none ∧ ∀ t, s.threads t = none

/-- Reachable states of the soft/hard system. -/
inductive SHReach (soft hard : Periods) : SHState → Prop
| init (s : SHState) : SHInit s → SHReach soft hard s
| step (s s' : SHState) :
    SHReach soft hard s → SHGlobal soft hard s s' → SHReach soft hard s'

/-! ### Helper lemmas about validity -/

theorem isValidAt_some_moment (r : result) (t : Nat) (p : Periods)
    (h : r.isValidAt t p = true) : ∃ m, r.moment = some m := by
  cases hm : r.moment with
  | none => simp [result.isValidAt, hm] at h
  | some m => exact ⟨m, rfl⟩

theorem isValidAt_mono_false (r : result) (t0 t1 : Nat) (p : Periods)
    (h : r.isValidAt t0 p = false) (hle : t0 ≤ t1) :
    r.isValidAt t1 p = false := by
  cases hm : r.moment with
  | none => simp [result.isValidAt, hm]
  | some m =>
    simp only [result.isValidAt, hm, decide_eq_false_iff_not, not_lt] at h ⊢
    have : (t0 : Int) ≤ (t1 : Int) := by exact_mod_cast hle
    omega

theorem isValidAt_period_mono (r : result) (t : Nat) (p q : Periods)
    (hd : p.Default ≤ q.Default) (he : p.Error ≤ q.Error)
    (h : r.isValidAt t p = true) : r.isValidAt t q = true := by
  cases hm : r.moment with
  | none => simp [result.isValidAt, hm] at h
  | some m =>
    simp only [result.isValidAt, hm, decide_eq_true_eq] at h ⊢
    cases he' : r.err with
    | none => simp only [Periods.Period, he'] at h ⊢; linarith
    | some k => simp only [Periods.Period, he'] at h ⊢; linarith

/-! ### The at-most-one-owner region of the soft/hard flag

A thread is "in the region" from the moment it wins the IDLE→REFRESHING
compare-and-swap (or is the detached task spawned by the winner, ownership
passing to the task at the spawn step) until the flag is reset to IDLE. -/

/-- Whether a program counter owns the REFRESHING flag. -/
def inRegion : SHPc → Bool
  | .midWon _ _ => true
  | .midLock _ => true
  | .midReset _ => true
  | .bRecheck _ => true
  | .bProduce _ => true
  | .bFinish _ _ => true
  | .taskProduce => true
  | .taskStoreDone => true
  | .taskReset => true
  | _ => false

/-- At most one thread owns the flag. -/
def regionUniq (th : TId → Option SHPc) : Prop :=
  ∀ t u p q, th t = some p → th u = some q →
    inRegion p = true → inRegion q = true → t = u

/-- An owner exists only while the flag is REFRESHING. -/
def regionFlag (th : TId → Option SHPc) (flag : Bool) : Prop :=
  ∀ t p, th t = some p → inRegion p = true → flag = true

theorem regionUniq_upd_nonregion (th : TId → Option SHPc) (w : TId) (pc : SHPc)
    (h : regionUniq th) (hpc : inRegion pc = false) :
    regionUniq (upd th w (some pc)) := by
  intro t u p q hp hq hrp hrq
  by_cases htw : t = w
  · subst htw; rw [upd_same] at hp
    cases hp; rw [hrp] at hpc; cases hpc
  · rw [upd_other _ _ _ _ htw] at hp
    by_cases huw : u = w
    · subst huw; rw [upd_same] at hq
      cases hq; rw [hrq] at hpc; cases hpc
    · rw [upd_other _ _ _ _ huw] at hq
      exact h t u p q hp hq hrp hrq

theorem regionFlag_upd_nonregion (th : TId → Option SHPc) (flag : Bool)
    (w : TId) (pc : SHPc) (h : regionFlag th flag) (hpc : inRegion pc = false) :
    regionFlag (upd th w (some pc)) flag := by
  intro t p hp hrp
  by_cases htw : t = w
  · subst htw; rw [upd_same] at hp
    cases hp; rw [hrp] at hpc; cases hpc
  · rw [upd_other _ _ _ _ htw] at hp
    exact h t p hp hrp

theorem regionUniq_upd_move (th : TId → Option SHPc) (w : TId)
    (pcOld pcNew : SHPc) (h : regionUniq th) (hw : th w = some pcOld)
    (hwR : inRegion pcOld = true) :
    regionUniq (upd th w (some pcNew)) := by
  intro t u p q hp hq hrp hrq
  by_cases htw : t = w
  · by_cases huw : u = w
    · rw [htw, huw]
    · rw [upd_other _ _ _ _ huw] at hq
      exact absurd (h u w q pcOld hq hw hrq hwR) huw
  · rw [upd_other _ _ _ _ htw] at hp
    by_cases huw : u = w
    · rw [huw]
      exact absurd (h t w p pcOld hp hw hrp hwR) htw
    · rw [upd_other _ _ _ _ huw] at hq
      exact h t u p q hp hq hrp hrq

theorem regionFlag_upd_move (th : TId → Option SHPc) (flag : Bool) (w : TId)
    (pcOld pcNew : SHPc) (h : regionFlag th flag) (hw : th w = some pcOld)
    (hwR : inRegion pcOld = true) :
    regionFlag (upd th w (some pcNew)) flag := by
  intro t p hp hrp
  by_cases htw : t = w
  · exact h w pcOld hw hwR
  · rw [upd_other _ _ _ _ htw] at hp
    exact h t p hp hrp

theorem regionUniq_enter (th : TId → Option SHPc) (flag : Bool) (w : TId)
    (pcNew : SHPc) (hfl : regionFlag th flag) (hflag : flag = false) :
    regionUniq (upd th w (some pcNew)) := by
  intro t u p q hp hq hrp hrq
  by_cases htw : t = w
  · by_cases huw : u = w
    · rw [htw, huw]
    · rw [upd_other _ _ _ _ huw] at hq
      rw [hfl u q hq hrq] at hflag; cases hflag
  · rw [upd_other _ _ _ _ htw] at hp
    rw [hfl t p hp hrp] at hflag; cases hflag

theorem regionFlag_exit (th : TId → Option SHPc) (flag' : Bool) (w : TId)
    (pcOld pcNew : SHPc) (huniq : regionUniq th) (hw : th w = some pcOld)
    (hwR : inRegion pcOld = true) (hnewR : inRegion pcNew = false) :
    regionFlag (upd th w (some pcNew)) flag' := by
  intro t p hp hrp
  by_cases htw : t = w
  · subst htw; rw [upd_same] at hp
    cases hp; rw [hrp] at hnewR; cases hnewR
  · rw [upd_other _ _ _ _ htw] at hp
    exact absurd (huniq t w p pcOld hp hw hrp hwR) htw

theorem regionUniq_spawn (th : TId → Option SHPc) (w u0 : TId)
    (pcOld retpc : SHPc) (huniq : regionUniq th) (hw : th w = some pcOld)
    (hwR : inRegion pcOld = true) (hretR : inRegion retpc = false)
    (_hu0 : th u0 = none) :
    regionUniq (upd (upd th w (some retpc)) u0 (some .taskProduce)) := by
  intro t u p q hp hq hrp hrq
  have key : ∀ x r, (upd (upd th w (some retpc)) u0 (some .taskProduce)) x = some r →
      inRegion r = true → x = u0 := by
    intro x r hx hrx
    by_cases hxu : x = u0
    · exact hxu
    · rw [upd_other _ _ _ _ hxu] at hx
      by_cases hxw : x = w
      · subst hxw; rw [upd_same] at hx
        cases hx; rw [hrx] at hretR; cases hretR
      · rw [upd_other _ _ _ _ hxw] at hx
        exact absurd (huniq x w r pcOld hx hw hrx hwR) hxw
  rw [key t p hp hrp, key u q hq hrq]

theorem regionFlag_spawn (th : TId → Option SHPc) (flag : Bool) (w u0 : TId)
    (pcOld retpc : SHPc) (h : regionFlag th flag) (hw : th w = some pcOld)
    (hwR : inRegion pcOld = true) (hretR : inRegion retpc = false) :
    regionFlag (upd (upd th w (some retpc)) u0 (some .taskProduce)) flag := by
  intro t p hp hrp
  by_cases htu : t = u0
  · exact h w pcOld hw hwR
  · rw [upd_other _ _ _ _ htu] at hp
    by_cases htw : t = w
    · subst htw; rw [upd_same] at hp
      cases hp; rw [hrp] at hretR; cases hretR
    · rw [upd_other _ _ _ _ htw] at hp
      exact h t p hp hrp

/-- The flag-ownership invariant of the soft/hard system. -/
def SHRegion (s : SHState) : Prop :=
  regionUniq s.threads ∧ regionFlag s.threads s.flag

theorem shRegion_step (soft hard : Periods) (s s' : SHState)
    (hg : SHGlobal soft hard s s') (ih : SHRegion s) : SHRegion s' := by
  obtain ⟨huniq, hflag⟩ := ih
  cases hg with
  | tick => exact ⟨huniq, hflag⟩
  | thread w =>
    rename_i hstep
    cases hstep with
    | arrive hw =>
      exact ⟨regionUniq_upd_nonregion _ _ _ huniq rfl,
             regionFlag_upd_nonregion _ _ _ _ hflag rfl⟩
    | getNoRes hw hc =>
      exact ⟨regionUniq_upd_nonregion _ _ _ huniq rfl,
             regionFlag_upd_nonregion _ _ _ _ hflag rfl⟩
    | getFresh res hw hc hv =>
      exact ⟨regionUniq_upd_nonregion _ _ _ huniq rfl,
             regionFlag_upd_nonregion _ _ _ _ hflag rfl⟩
    | getMid res hw hc hv1 hv2 =>
      exact ⟨regionUniq_upd_nonregion _ _ _ huniq rfl,
             regionFlag_upd_nonregion _ _ _ _ hflag rfl⟩
    | getHardExpired res hw hc hv1 hv2 =>
      exact ⟨regionUniq_upd_nonregion _ _ _ huniq rfl,
             regionFlag_upd_nonregion _ _ _ _ hflag rfl⟩
    | midCASWin res now hw hf =>
      exact ⟨regionUniq_enter _ _ _ _ hflag hf, fun t p _ _ => rfl⟩
    | midCASFail res now hw hf =>
      exact ⟨regionUniq_upd_nonregion _ _ _ huniq rfl,
             regionFlag_upd_nonregion _ _ _ _ hflag rfl⟩
    | midWonFresh res res2 now hw hc hv =>
      exact ⟨regionUniq_upd_move _ _ _ _ huniq hw rfl,
             regionFlag_upd_move _ _ _ _ _ hflag hw rfl⟩
    | midWonStale res res2 now u hw hc hv hu =>
      exact ⟨regionUniq_spawn _ _ _ _ _ huniq hw rfl rfl hu,
             regionFlag_spawn _ _ _ _ _ _ hflag hw rfl rfl⟩
    | midLockAcq res hw hm =>
      exact ⟨regionUniq_upd_move _ _ _ _ huniq hw rfl,
             regionFlag_upd_move _ _ _ _ _ hflag hw rfl⟩
    | midResetStep res hw =>
      exact ⟨regionUniq_upd_nonregion _ _ _ huniq rfl,
             regionFlag_exit _ _ _ _ _ huniq hw rfl rfl⟩
    | taskStore v e hw =>
      exact ⟨regionUniq_upd_move _ _ _ _ huniq hw rfl,
             regionFlag_upd_move _ _ _ _ _ hflag hw rfl⟩
    | taskLockAcq hw hm =>
      exact ⟨regionUniq_upd_move _ _ _ _ huniq hw rfl,
             regionFlag_upd_move _ _ _ _ _ hflag hw rfl⟩
    | taskResetStep hw =>
      exact ⟨regionUniq_upd_nonregion _ _ _ huniq rfl,
             regionFlag_exit _ _ _ _ _ huniq hw rfl rfl⟩
    | bLockAcq t0 hw hm =>
      exact ⟨regionUniq_upd_nonregion _ _ _ huniq rfl,
             regionFlag_upd_nonregion _ _ _ _ hflag rfl⟩
    | bCheckFresh t0 res hw hc hv =>
      exact ⟨regionUniq_upd_nonregion _ _ _ huniq rfl,
             regionFlag_upd_nonregion _ _ _ _ hflag rfl⟩
    | bCheckNone t0 hw hc =>
      exact ⟨regionUniq_upd_nonregion _ _ _ huniq rfl,
             regionFlag_upd_nonregion _ _ _ _ hflag rfl⟩
    | bCheckStale t0 res hw hc hv =>
      exact ⟨regionUniq_upd_nonregion _ _ _ huniq rfl,
             regionFlag_upd_nonregion _ _ _ _ hflag rfl⟩
    | bCASWin t0 hw hf =>
      exact ⟨regionUniq_enter _ _ _ _ hflag hf, fun t p _ _ => rfl⟩
    | bCASFail t0 hw hf =>
      exact ⟨regionUniq_upd_nonregion _ _ _ huniq rfl,
             regionFlag_upd_nonregion _ _ _ _ hflag rfl⟩
    | bWaitSleep t0 hw hf =>
      exact ⟨regionUniq_upd_nonregion _ _ _ huniq rfl,
             regionFlag_upd_nonregion _ _ _ _ hflag rfl⟩
    | bWaitDone t0 hw hf =>
      exact ⟨regionUniq_upd_nonregion _ _ _ huniq rfl,
             regionFlag_upd_nonregion _ _ _ _ hflag rfl⟩
    | bWake t0 hw hm =>
      exact ⟨regionUniq_upd_nonregion _ _ _ huniq rfl,
             regionFlag_upd_nonregion _ _ _ _ hflag rfl⟩
    | bRecheckFresh t0 res hw hc hv =>
      exact ⟨regionUniq_upd_nonregion _ _ _ huniq rfl,
             regionFlag_exit _ _ _ _ _ huniq hw rfl rfl⟩
    | bRecheckMid t0 res u hw hc hv1 hv2 hu =>
      exact ⟨regionUniq_spawn _ _ _ _ _ huniq hw rfl rfl hu,
             regionFlag_spawn _ _ _ _ _ _ hflag hw rfl rfl⟩
    | bRecheckNone t0 hw hc =>
      exact ⟨regionUniq_upd_move _ _ _ _ huniq hw rfl,
             regionFlag_upd_move _ _ _ _ _ hflag hw rfl⟩
    | bRecheckStale t0 res hw hc hv1 hv2 =>
      exact ⟨regionUniq_upd_move _ _ _ _ huniq hw rfl,
             regionFlag_upd_move _ _ _ _ _ hflag hw rfl⟩
    | bStore t0 v e hw =>
      exact ⟨regionUniq_upd_move _ _ _ _ huniq hw rfl,
             regionFlag_upd_move _ _ _ _ _ hflag hw rfl⟩
    | bFinishStep t0 res hw =>
      exact ⟨regionUniq_upd_nonregion _ _ _ huniq rfl,
             regionFlag_exit _ _ _ _ _ huniq hw rfl rfl⟩

theorem shRegion_invariant (soft hard : Periods) (s : SHState)
    (h : SHReach soft hard s) : SHRegion s := by
  induction h with
  | init s hinit =>
    rcases hinit with ⟨-, -, -, hth⟩
    constructor
    · intro t u p q hp; rw [hth t] at hp; cases hp
    · intro t p hp; rw [hth t] at hp; cases hp
  | step s s' hr hg ih => exact shRegion_step soft hard s s' hg ih

/-! ### Freshness of the blocking (past-hard) path

A thread that entered the blocking path at clock `t0` observed the cell
hard-expired at `t0` (or empty).  From then on, the cell either still
holds such a stale result or holds a result stored — and hence stamped —
at or after `t0`.  Whatever such a thread eventually returns therefore
carries a production moment `≥ t0`. -/

/-- The cell, as seen by a blocking-path thread that entered at `t0`:
every stored result is either hard-expired already at `t0` or was
produced at or after `t0`. -/
def staleOrFresh (hard : Periods) (t0 : Nat) (cell : Option result) : Prop :=
  ∀ r, cell = some r →
    r.isValidAt t0 hard = false ∨ ∃ m, r.moment = some m ∧ t0 ≤ m

/-- Per-program-counter part of the freshness invariant. -/
def pcOK (hard : Periods) (cell : Option result) (clock : Nat) : SHPc → Prop
  | .bLock t0 => t0 ≤ clock ∧ staleOrFresh hard t0 cell
  | .bCheck t0 => t0 ≤ clock ∧ staleOrFresh hard t0 cell
  | .bCAS t0 => t0 ≤ clock ∧ staleOrFresh hard t0 cell
  | .bWaitLoop t0 => t0 ≤ clock ∧ staleOrFresh hard t0 cell
  | .bBlocked t0 => t0 ≤ clock ∧ staleOrFresh hard t0 cell
  | .bRecheck t0 => t0 ≤ clock ∧ staleOrFresh hard t0 cell
  | .bProduce t0 => t0 ≤ clock ∧ staleOrFresh hard t0 cell
  | .bFinish t0 res => (t0 ≤ clock ∧ staleOrFresh hard t0 cell) ∧
      ∃ m, res.moment = some m ∧ t0 ≤ m
  | .retB t0 res => ∃ m, res.moment = some m ∧ t0 ≤ m
  | _ => True

/-- The freshness invariant over all threads. -/
def freshAll (hard : Periods) (cell : Option result) (clock : Nat)
    (th : TId → Option SHPc) : Prop :=
  ∀ t p, th t = some p → pcOK hard cell clock p

theorem staleOrFresh_fresh (hard : Periods) (t0 clock : Nat) (v : Val)
    (e : Err) (hle : t0 ≤ clock) :
    staleOrFresh hard t0 (some (produceResult clock v e)) := by
  intro r hr
  cases hr
  exact Or.inr ⟨clock, rfl, hle⟩

theorem pcOK_tick (hard : Periods) (cell : Option result) (clock : Nat)
    (p : SHPc) (h : pcOK hard cell clock p) : pcOK hard cell (clock + 1) p := by
  cases p with
  | bLock t0 => exact ⟨h.1.trans (Nat.le_succ _), h.2⟩
  | bCheck t0 => exact ⟨h.1.trans (Nat.le_succ _), h.2⟩
  | bCAS t0 => exact ⟨h.1.trans (Nat.le_succ _), h.2⟩
  | bWaitLoop t0 => exact ⟨h.1.trans (Nat.le_succ _), h.2⟩
  | bBlocked t0 => exact ⟨h.1.trans (Nat.le_succ _), h.2⟩
  | bRecheck t0 => exact ⟨h.1.trans (Nat.le_succ _), h.2⟩
  | bProduce t0 => exact ⟨h.1.trans (Nat.le_succ _), h.2⟩
  | bFinish t0 res => exact ⟨⟨h.1.1.trans (Nat.le_succ _), h.1.2⟩, h.2⟩
  | retB t0 res => exact h
  | getStart => trivial
  | midCAS res now => trivial
  | midWon res now => trivial
  | midLock res => trivial
  | midReset res => trivial
  | retF res => trivial
  | taskProduce => trivial
  | taskStoreDone => trivial
  | taskReset => trivial
  | taskDone => trivial

theorem pcOK_store (hard : Periods) (cell : Option result) (clock : Nat)
    (v : Val) (e : Err) (p : SHPc) (h : pcOK hard cell clock p) :
    pcOK hard (some (produceResult clock v e)) clock p := by
  cases p with
  | bLock t0 => exact ⟨h.1, staleOrFresh_fresh hard t0 clock v e h.1⟩
  | bCheck t0 => exact ⟨h.1, staleOrFresh_fresh hard t0 clock v e h.1⟩
  | bCAS t0 => exact ⟨h.1, staleOrFresh_fresh hard t0 clock v e h.1⟩
  | bWaitLoop t0 => exact ⟨h.1, staleOrFresh_fresh hard t0 clock v e h.1⟩
  | bBlocked t0 => exact ⟨h.1, staleOrFresh_fresh hard t0 clock v e h.1⟩
  | bRecheck t0 => exact ⟨h.1, staleOrFresh_fresh hard t0 clock v e h.1⟩
  | bProduce t0 => exact ⟨h.1, staleOrFresh_fresh hard t0 clock v e h.1⟩
  | bFinish t0 res =>
    exact ⟨⟨h.1.1, staleOrFresh_fresh hard t0 clock v e h.1.1⟩, h.2⟩
  | retB t0 res => exact h
  | getStart => trivial
  | midCAS res now => trivial
  | midWon res now => trivial
  | midLock res => trivial
  | midReset res => trivial
  | retF res => trivial
  | taskProduce => trivial
  | taskStoreDone => trivial
  | taskReset => trivial
  | taskDone => trivial

theorem freshAll_mono (hard : Periods) (cell cell' : Option result)
    (clock clock' : Nat) (th : TId → Option SHPc)
    (h : freshAll hard cell clock th)
    (f : ∀ p, pcOK hard cell clock p → pcOK hard cell' clock' p) :
    freshAll hard cell' clock' th :=
  fun t p hp => f p (h t p hp)

theorem freshAll_upd (hard : Periods) (cell : Option result) (clock : Nat)
    (th : TId → Option SHPc) (w : TId) (pcNew : SHPc)
    (h : freshAll hard cell clock th) (hnew : pcOK hard cell clock pcNew) :
    freshAll hard cell clock (upd th w (some pcNew)) := by
  intro t p hp
  by_cases htw : t = w
  · rw [htw, upd_same] at hp; cases hp; exact hnew
  · rw [upd_other _ _ _ _ htw] at hp; exact h t p hp

/-- A result that is still hard-valid now cannot be one that was already
hard-expired at the earlier instant `t0`: it must be fresh. -/
theorem fresh_of_hard_valid (hard : Periods) (t0 clock : Nat) (res : result)
    (h1 : t0 ≤ clock)
    (hsf : res.isValidAt t0 hard = false ∨ ∃ m, res.moment = some m ∧ t0 ≤ m)
    (hv : res.isValidAt clock hard = true) :
    ∃ m, res.moment = some m ∧ t0 ≤ m := by
  cases hsf with
  | inl hstale =>
    rw [isValidAt_mono_false res t0 clock hard hstale h1] at hv
    cases hv
  | inr hfresh => exact hfresh

/-- The freshness invariant of the soft/hard system. -/
def SHFresh (hard : Periods) (s : SHState) : Prop :=
  freshAll hard s.cell s.clock s.threads

theorem shFresh_step (soft hard : Periods)
    (hsd : soft.Default ≤ hard.Default) (hse : soft.Error ≤ hard.Error)
    (s s' : SHState) (hg : SHGlobal soft hard s s') (ih : SHFresh hard s) :
    SHFresh hard s' := by
  cases hg with
  | tick =>
    exact freshAll_mono _ _ _ _ _ _ ih (pcOK_tick hard s.cell s.clock)
  | thread w =>
    rename_i hstep
    cases hstep with
    | arrive hw => exact freshAll_upd _ _ _ _ _ _ ih trivial
    | getNoRes hw hc =>
      refine freshAll_upd _ _ _ _ _ _ ih ⟨le_refl _, ?_⟩
      intro r hr
      rw [hc] at hr; cases hr
    | getFresh res hw hc hv => exact freshAll_upd _ _ _ _ _ _ ih trivial
    | getMid res hw hc hv1 hv2 => exact freshAll_upd _ _ _ _ _ _ ih trivial
    | getHardExpired res hw hc hv1 hv2 =>
      refine freshAll_upd _ _ _ _ _ _ ih ⟨le_refl _, ?_⟩
      intro r hr
      rw [hc] at hr
      cases hr
      exact Or.inl hv2
    | midCASWin res now hw hf => exact freshAll_upd _ _ _ _ _ _ ih trivial
    | midCASFail res now hw hf => exact freshAll_upd _ _ _ _ _ _ ih trivial
    | midWonFresh res res2 now hw hc hv =>
      exact freshAll_upd _ _ _ _ _ _ ih trivial
    | midWonStale res res2 now u hw hc hv hu =>
      exact freshAll_upd _ _ _ _ _ _ (freshAll_upd _ _ _ _ _ _ ih trivial) trivial
    | midLockAcq res hw hm => exact freshAll_upd _ _ _ _ _ _ ih trivial
    | midResetStep res hw => exact freshAll_upd _ _ _ _ _ _ ih trivial
    | taskStore v e hw =>
      exact freshAll_upd _ _ _ _ _ _
        (freshAll_mono _ _ _ _ _ _ ih (pcOK_store hard s.cell s.clock v e))
        trivial
    | taskLockAcq hw hm => exact freshAll_upd _ _ _ _ _ _ ih trivial
    | taskResetStep hw => exact freshAll_upd _ _ _ _ _ _ ih trivial
    | bLockAcq t0 hw hm => exact freshAll_upd _ _ _ _ _ _ ih (ih w (.bLock t0) hw)
    | bCheckFresh t0 res hw hc hv =>
      have old := ih w _ hw
      exact freshAll_upd _ _ _ _ _ _ ih
        (fresh_of_hard_valid hard t0 s.clock res old.1 (old.2 res hc)
          (isValidAt_period_mono res s.clock soft hard hsd hse hv))
    | bCheckNone t0 hw hc => exact freshAll_upd _ _ _ _ _ _ ih (ih w (.bCheck t0) hw)
    | bCheckStale t0 res hw hc hv =>
      exact freshAll_upd _ _ _ _ _ _ ih (ih w (.bCheck t0) hw)
    | bCASWin t0 hw hf => exact freshAll_upd _ _ _ _ _ _ ih (ih w (.bCAS t0) hw)
    | bCASFail t0 hw hf => exact freshAll_upd _ _ _ _ _ _ ih (ih w (.bCAS t0) hw)
    | bWaitSleep t0 hw hf => exact freshAll_upd _ _ _ _ _ _ ih (ih w (.bWaitLoop t0) hw)
    | bWaitDone t0 hw hf => exact freshAll_upd _ _ _ _ _ _ ih (ih w (.bWaitLoop t0) hw)
    | bWake t0 hw hm => exact freshAll_upd _ _ _ _ _ _ ih (ih w (.bBlocked t0) hw)
    | bRecheckFresh t0 res hw hc hv =>
      have old := ih w _ hw
      exact freshAll_upd _ _ _ _ _ _ ih
        (fresh_of_hard_valid hard t0 s.clock res old.1 (old.2 res hc)
          (isValidAt_period_mono res s.clock soft hard hsd hse hv))
    | bRecheckMid t0 res u hw hc hv1 hv2 hu =>
      have old := ih w _ hw
      exact freshAll_upd _ _ _ _ _ _
        (freshAll_upd _ _ _ _ _ _ ih
          (fresh_of_hard_valid hard t0 s.clock res old.1 (old.2 res hc) hv2))
        trivial
    | bRecheckNone t0 hw hc => exact freshAll_upd _ _ _ _ _ _ ih (ih w (.bRecheck t0) hw)
    | bRecheckStale t0 res hw hc hv1 hv2 =>
      exact freshAll_upd _ _ _ _ _ _ ih (ih w (.bRecheck t0) hw)
    | bStore t0 v e hw =>
      have old := ih w _ hw
      refine freshAll_upd _ _ _ _ _ _
        (freshAll_mono _ _ _ _ _ _ ih (pcOK_store hard s.cell s.clock v e)) ?_
      exact ⟨⟨old.1, staleOrFresh_fresh hard t0 s.clock v e old.1⟩,
             ⟨s.clock, rfl, old.1⟩⟩
    | bFinishStep t0 res hw =>
      exact freshAll_upd _ _ _ _ _ _ ih (ih w (.bFinish t0 res) hw).2

theorem shFresh_invariant (soft hard : Periods)
    (hsd : soft.Default ≤ hard.Default) (hse : soft.Error ≤ hard.Error)
    (s : SHState) (h : SHReach soft hard s) : SHFresh hard s := by
  induction h with
  | init s hinit =>
    rcases hinit with ⟨-, -, -, hth⟩
    intro t p hp
    rw [hth t] at hp; cases hp
  | step s s' hr hg ih => exact shFresh_step soft hard hsd hse s s' hg ih

/-! ## Claim theorems -/

/-- C3: `is_valid_at(now, p)` is false when the production moment is
unset, and otherwise true iff `moment + p.period_for(error present)` is
strictly after `now`; consequently, under a zero period a result is never
valid at any time at or after its production moment, so `produce` is
re-invoked on every `Get`. -/
theorem C3_isValidAt_spec :
    (∀ (r : result) (now : Nat) (pp : Periods), r.moment = none →
        r.isValidAt now pp = false) ∧
    (∀ (r : result) (m now : Nat) (pp : Periods), r.moment = some m →
        (r.isValidAt now pp = true ↔ (m : Int) + pp.Period r.err > (now : Int))) ∧
    (∀ (r : result) (m now : Nat) (pp : Periods), pp.Period r.err = 0 →
        r.moment = some m → m ≤ now → r.isValidAt now pp = false) ∧
    (∀ (s : odSeqState) (now : Nat) (v : Val) (e : Err),
        (s.res.moment = none ∨ ∃ m, s.res.moment = some m ∧ m ≤ now) →
        (onDemandGetSeq (Periods.Same 0) s now v e).2.2 = true) := by
  refine ⟨?_, ?_, ?_, ?_⟩
  · intro r now pp h
    simp [result.isValidAt, h]
  · intro r m now pp h
    simp [result.isValidAt, h]
  · intro r m now pp hp hm hle
    simp only [result.isValidAt, hm, hp, decide_eq_false_iff_not, not_lt,
      add_zero]
    exact_mod_cast hle
  · intro s now v e h
    have hinvalid : s.res.isValidAt now (Periods.Same 0) = false := by
      cases h with
      | inl h0 => simp [result.isValidAt, h0]
      | inr h1 =>
        obtain ⟨m, hm, hle⟩ := h1
        have hp : (Periods.Same 0).Period s.res.err = 0 := by
          cases s.res.err <;> rfl
        simp only [result.isValidAt, hm, hp, decide_eq_false_iff_not, not_lt,
          add_zero]
        exact_mod_cast hle
    simp [onDemandGetSeq, hinvalid]

theorem C3_isValidAt_spec_witness :
    ((⟨none, none, none⟩ : result).isValidAt 5 (Periods.New 3 4) = false) ∧
    ((⟨some 1, none, some 2⟩ : result).isValidAt 7 (Periods.New 0 0) = false) ∧
    ((onDemandGetSeq (Periods.Same 0) ⟨⟨some 1, none, some 2⟩⟩ 7
        (some 9) none).2.2 = true) :=
  ⟨C3_isValidAt_spec.1 ⟨none, none, none⟩ 5 (Periods.New 3 4) rfl,
   C3_isValidAt_spec.2.2.1 ⟨some 1, none, some 2⟩ 2 7 (Periods.New 0 0)
     rfl rfl (by decide),
   C3_isValidAt_spec.2.2.2 ⟨⟨some 1, none, some 2⟩⟩ 7 (some 9) none
     (Or.inr ⟨2, rfl, by decide⟩)⟩

theorem validate_none_iff (pp : Periods) :
    pp.Validate = none ↔ (0 ≤ pp.Default ∧ 0 ≤ pp.Error) := by
  unfold Periods.Validate
  by_cases h1 : pp.Default < 0
  · rw [if_pos h1]
    constructor
    · intro h; cases h
    · intro h; exact absurd h.1 (not_le.mpr h1)
  · rw [if_neg h1]
    by_cases h2 : pp.Error < 0
    · rw [if_pos h2]
      constructor
      · intro h; cases h
      · intro h; exact absurd h.2 (not_le.mpr h2)
    · rw [if_neg h2]
      exact iff_of_true rfl ⟨not_lt.mp h1, not_lt.mp h2⟩

/-- C4: construction of either strategy returns an error and no instance
exactly when an input is invalid — nil context, nil producer, negative
period, or (for soft/hard) a hard period below the corresponding soft
period — with the matching error in the source's checking order; for
every non-nil context and producer with non-negative periods satisfying
hard ≥ soft per category, construction succeeds. -/
theorem C4_construction :
    (∀ (ctx : Option Ctx) (produce : Option ProduceFunc) (pp : Periods),
        (OnDemand ctx produce pp).isOk = true ↔
          (ctx.isSome = true ∧ produce.isSome = true ∧
           0 ≤ pp.Default ∧ 0 ≤ pp.Error)) ∧
    (∀ produce pp, OnDemand none produce pp = .error .errContextNil) ∧
    (∀ c pp, OnDemand (some c) none pp = .error .errProduceNil) ∧
    (∀ c p pp e, pp.Validate = some e →
        OnDemand (some c) (some p) pp = .error e) ∧
    (∀ pp : Periods, pp.Default < 0 →
        pp.Validate = some (.errDefaultPeriodNegative pp.Default)) ∧
    (∀ pp : Periods, 0 ≤ pp.Default → pp.Error < 0 →
        pp.Validate = some (.errErrorPeriodNegative pp.Error)) ∧
    (∀ (ctx : Option Ctx) (produce : Option ProduceFunc) (soft hard : Periods),
        (SoftHard ctx produce soft hard).isOk = true ↔
          (ctx.isSome = true ∧ produce.isSome = true ∧
           0 ≤ soft.Default ∧ 0 ≤ soft.Error ∧
           0 ≤ hard.Default ∧ 0 ≤ hard.Error ∧
           soft.Default ≤ hard.Default ∧ soft.Error ≤ hard.Error)) ∧
    (∀ produce soft hard, SoftHard none produce soft hard =
        .error .errContextNil) ∧
    (∀ c soft hard, SoftHard (some c) none soft hard =
        .error .errProduceNil) ∧
    (∀ c p soft hard e, soft.Validate = some e →
        SoftHard (some c) (some p) soft hard = .error e) ∧
    (∀ (c : Ctx) (p : ProduceFunc) (soft hard : Periods),
        soft.Validate = none → hard.Default < soft.Default →
        SoftHard (some c) (some p) soft hard =
          .error (.errDefaultHardLessThanSoft hard.Default soft.Default)) ∧
    (∀ (c : Ctx) (p : ProduceFunc) (soft hard : Periods),
        soft.Validate = none → soft.Default ≤ hard.Default →
        hard.Error < soft.Error →
        SoftHard (some c) (some p) soft hard =
          .error (.errErrorHardLessThanSoft hard.Error soft.Error)) := by
  refine ⟨?_, ?_, ?_, ?_, ?_, ?_, ?_, ?_, ?_, ?_, ?_, ?_⟩
  · intro ctx produce pp
    cases ctx with
    | none => simp [OnDemand, Except.isOk, Except.toBool]
    | some c =>
      cases produce with
      | none => simp [OnDemand, Except.isOk, Except.toBool]
      | some p =>
        simp only [OnDemand, Option.isSome_some, true_and]
        cases hval : pp.Validate with
        | some e =>
          simp only [Except.isOk, Except.toBool]
          constructor
          · intro h; cases h
          · intro h
            rw [(validate_none_iff pp).mpr h] at hval
            cases hval
        | none =>
          simp only [Except.isOk, Except.toBool, true_iff]
          exact (validate_none_iff pp).mp hval
  · intro produce pp; rfl
  · intro c pp; rfl
  · intro c p pp e h
    simp only [OnDemand, h]
  · intro pp h
    unfold Periods.Validate
    rw [if_pos h]
  · intro pp h1 h2
    unfold Periods.Validate
    rw [if_neg (not_lt.mpr h1), if_pos h2]
  · intro ctx produce soft hard
    cases ctx with
    | none => simp [SoftHard, Except.isOk, Except.toBool]
    | some c =>
      cases produce with
      | none => simp [SoftHard, Except.isOk, Except.toBool]
      | some p =>
        simp only [SoftHard, Option.isSome_some, true_and]
        cases hval : soft.Validate with
        | some e =>
          simp only [Except.isOk, Except.toBool]
          constructor
          · intro h; cases h
          · intro h
            rw [(validate_none_iff soft).mpr ⟨h.1, h.2.1⟩] at hval
            cases hval
        | none =>
          have hsoft := (validate_none_iff soft).mp hval
          by_cases hd : hard.Default < soft.Default
          · rw [if_pos hd]
            simp only [Except.isOk, Except.toBool]
            constructor
            · intro h; cases h
            · intro h
              exact absurd h.2.2.2.2.1 (not_le.mpr hd)
          · rw [if_neg hd]
            by_cases he : hard.Error < soft.Error
            · rw [if_pos he]
              simp only [Except.isOk, Except.toBool]
              constructor
              · intro h; cases h
              · intro h
                exact absurd h.2.2.2.2.2 (not_le.mpr he)
            · rw [if_neg he]
              simp only [Except.isOk, Except.toBool, true_iff]
              exact ⟨hsoft.1, hsoft.2, le_trans hsoft.1 (not_lt.mp hd),
                     le_trans hsoft.2 (not_lt.mp he),
                     not_lt.mp hd, not_lt.mp he⟩
  · intro produce soft hard; rfl
  · intro c soft hard; rfl
  · intro c p soft hard e h
    simp only [SoftHard, h]
  · intro c p soft hard hval hd
    simp only [SoftHard, hval]
    rw [if_pos hd]
  · intro c p soft hard hval hd he
    simp only [SoftHard, hval]
    rw [if_neg (not_lt.mpr hd), if_pos he]

theorem C4_construction_witness :
    ((OnDemand (some background) (some (fun _ => (some 1, none)))
        (Periods.New 3 4)).isOk = true) ∧
    ((Periods.New (-2) 4).Validate =
        some (.errDefaultPeriodNegative (-2))) ∧
    ((Periods.New 3 (-4)).Validate = some (.errErrorPeriodNegative (-4))) ∧
    (OnDemand (some background) (some (fun _ => (some 1, none)))
        (Periods.New (-2) 4) = .error (.errDefaultPeriodNegative (-2))) ∧
    ((SoftHard (some background) (some (fun _ => (some 1, none)))
        (Periods.New 3 4) (Periods.New 5 6)).isOk = true) ∧
    (SoftHard (some background) (some (fun _ => (some 1, none)))
        (Periods.New 3 4) (Periods.New 2 6) =
        .error (.errDefaultHardLessThanSoft 2 3)) ∧
    (SoftHard (some background) (some (fun _ => (some 1, none)))
        (Periods.New 3 4) (Periods.New 5 1) =
        .error (.errErrorHardLessThanSoft 1 4)) :=
  ⟨(C4_construction.1 _ _ _).mpr ⟨rfl, rfl, by decide, by decide⟩,
   C4_construction.2.2.2.2.1 (Periods.New (-2) 4) (by decide),
   C4_construction.2.2.2.2.2.1 (Periods.New 3 (-4)) (by decide) (by decide),
   C4_construction.2.2.2.1 background (fun _ => (some 1, none))
     (Periods.New (-2) 4) _
     (C4_construction.2.2.2.2.1 (Periods.New (-2) 4) (by decide)),
   (C4_construction.2.2.2.2.2.2.1 _ _ _ _).mpr
     ⟨rfl, rfl, by decide, by decide, by decide, by decide, by decide,
      by decide⟩,
   C4_construction.2.2.2.2.2.2.2.2.2.2.1 background (fun _ => (some 1, none))
     (Periods.New 3 4) (Periods.New 2 6) (by decide) (by decide),
   C4_construction.2.2.2.2.2.2.2.2.2.2.2 background (fun _ => (some 1, none))
     (Periods.New 3 4) (Periods.New 5 1) (by decide) (by decide) (by decide)⟩

theorem shStep_bProduce_inv (soft hard : Periods) (t : TId) (s s' : SHState)
    (t0 : Nat) (hw : s.threads t = some (.bProduce t0))
    (hstep : SHStep soft hard t s s') :
    ∃ v e, s' = { s with
      cell := some (produceResult s.clock v e),
      threads := upd s.threads t
        (some (.bFinish t0 (produceResult s.clock v e))) } := by
  cases hstep
  case bStore t0' v e hw' =>
    rw [hw] at hw'
    injection hw' with h
    injection h with h2
    subst h2
    exact ⟨v, e, rfl⟩
  all_goals (exfalso; simp_all)

theorem shStep_taskProduce_inv (soft hard : Periods) (t : TId) (s s' : SHState)
    (hw : s.threads t = some .taskProduce)
    (hstep : SHStep soft hard t s s') :
    ∃ v e, s' = { s with
      cell := some (produceResult s.clock v e),
      threads := upd s.threads t (some .taskStoreDone) } := by
  cases hstep
  case taskStore v e hw' => exact ⟨v, e, rfl⟩
  all_goals (exfalso; simp_all)

/-- C8: for every production call that returns an error, both strategies
store the error together with the production timestamp exactly like a
success, return that error to the caller of `Get`, and use the
error-specific period in subsequent validity checks; no retry, wrapping,
or special-casing occurs inside the strategies. -/
theorem C8_error_first_class :
    (∀ (now : Nat) (v : Val) (e : Err),
        produceResult now v e = { val := v, err := e, moment := some now } ∧
        (produceResult now v e).expand = (v, e)) ∧
    (∀ (pp : Periods) (k : Int), pp.Period (some k) = pp.Error) ∧
    (∀ pp : Periods, pp.Period none = pp.Default) ∧
    (∀ (pp : Periods) (s : odSeqState) (now : Nat) (v : Val) (e : Err),
        s.res.isValidAt now pp = false →
        onDemandGetSeq pp s now v e =
          (⟨{ val := v, err := e, moment := some now }⟩, (v, e), true)) ∧
    (∀ (pp : Periods) (v : Val) (k : Int) (m now : Nat) (v' : Val) (e' : Err),
        (m : Int) + pp.Error > (now : Int) →
        onDemandGetSeq pp ⟨{ val := v, err := some k, moment := some m }⟩
            now v' e' =
          (⟨{ val := v, err := some k, moment := some m }⟩, (v, some k),
           false)) ∧
    (∀ (soft hard : Periods) (t : TId) (s s' : SHState) (t0 : Nat),
        s.threads t = some (.bProduce t0) → SHStep soft hard t s s' →
        ∃ v e, s'.cell = some { val := v, err := e, moment := some s.clock } ∧
          s'.threads t =
            some (.bFinish t0 { val := v, err := e, moment := some s.clock })) ∧
    (∀ (soft hard : Periods) (t : TId) (s s' : SHState),
        s.threads t = some .taskProduce → SHStep soft hard t s s' →
        ∃ v e, s'.cell =
          some { val := v, err := e, moment := some s.clock }) := by
  refine ⟨?_, ?_, ?_, ?_, ?_, ?_, ?_⟩
  · intro now v e; exact ⟨rfl, rfl⟩
  · intro pp k; rfl
  · intro pp; rfl
  · intro pp s now v e h
    simp [onDemandGetSeq, h, produceResult, result.expand]
  · intro pp v k m now v' e' h
    have hvalid : result.isValidAt
        { val := v, err := some k, moment := some m } now pp = true := by
      simp only [result.isValidAt, Periods.Period, decide_eq_true_eq]
      exact h
    simp [onDemandGetSeq, hvalid, result.expand]
  · intro soft hard t s s' t0 hw hstep
    obtain ⟨v, e, rfl⟩ := shStep_bProduce_inv soft hard t s s' t0 hw hstep
    exact ⟨v, e, rfl, upd_same _ _ _⟩
  · intro soft hard t s s' hw hstep
    obtain ⟨v, e, rfl⟩ := shStep_taskProduce_inv soft hard t s s' hw hstep
    exact ⟨v, e, rfl⟩

theorem C8_error_first_class_witness :
    (onDemandGetSeq (Periods.New 3 4) ⟨{}⟩ 0 none (some 7) =
        (⟨{ val := none, err := some 7, moment := some 0 }⟩,
         (none, some 7), true)) ∧
    (onDemandGetSeq (Periods.New 3 4)
        ⟨{ val := none, err := some 7, moment := some 0 }⟩ 2 (some 1) none =
        (⟨{ val := none, err := some 7, moment := some 0 }⟩,
         (none, some 7), false)) :=
  ⟨C8_error_first_class.2.2.2.1 (Periods.New 3 4) ⟨{}⟩ 0 none (some 7)
     (by decide),
   C8_error_first_class.2.2.2.2.1 (Periods.New 3 4) none 7 0 2 (some 1) none
     (by decide)⟩

/-- C9: if the production function returns a pair in which both the value
and the error are non-nil, both strategies store and return that pair
verbatim from `Get`, and the result is classified as an error for period
selection; the strategies never enforce mutual exclusivity of value and
error. -/
theorem C9_both_value_and_error :
    (∀ (now : Nat) (v k : Int),
        produceResult now (some v) (some k) =
          { val := some v, err := some k, moment := some now } ∧
        (produceResult now (some v) (some k)).expand = (some v, some k)) ∧
    (∀ (pp : Periods) (v k : Int) (m now : Nat),
        (result.isValidAt { val := some v, err := some k, moment := some m }
            now pp = true ↔ (m : Int) + pp.Error > (now : Int))) ∧
    (∀ (pp : Periods) (s : odSeqState) (now : Nat) (v k : Int),
        s.res.isValidAt now pp = false →
        onDemandGetSeq pp s now (some v) (some k) =
          (⟨{ val := some v, err := some k, moment := some now }⟩,
           (some v, some k), true)) ∧
    (∀ (soft hard : Periods) (t : TId) (s : SHState) (t0 : Nat) (v k : Int),
        s.threads t = some (.bProduce t0) →
        ∃ s', SHStep soft hard t s s' ∧
          s'.cell =
            some { val := some v, err := some k, moment := some s.clock } ∧
          s'.threads t = some (.bFinish t0
            { val := some v, err := some k, moment := some s.clock })) := by
  refine ⟨?_, ?_, ?_, ?_⟩
  · intro now v k; exact ⟨rfl, rfl⟩
  · intro pp v k m now
    simp [result.isValidAt, Periods.Period]
  · intro pp s now v k h
    simp [onDemandGetSeq, h, produceResult, result.expand]
  · intro soft hard t s t0 v k hw
    refine ⟨_, SHStep.bStore s t0 (some v) (some k) hw, rfl, ?_⟩
    exact upd_same _ _ _

theorem C9_both_value_and_error_witness :
    (onDemandGetSeq (Periods.New 3 4) ⟨{}⟩ 0 (some 1) (some 7) =
        (⟨{ val := some 1, err := some 7, moment := some 0 }⟩,
         (some 1, some 7), true)) ∧
    (∃ s', SHStep (Periods.New 3 4) (Periods.New 5 6) 0
        { cell := none, flag := true, mtx := some 0, clock := 2,
          threads := upd (fun _ => none) 0 (some (.bProduce 1)) } s' ∧
        s'.cell = some { val := some 1, err := some 7, moment := some 2 } ∧
        s'.threads 0 = some (.bFinish 1
          { val := some 1, err := some 7, moment := some 2 })) :=
  ⟨C9_both_value_and_error.2.2.1 (Periods.New 3 4) ⟨{}⟩ 0 1 7 (by decide),
   C9_both_value_and_error.2.2.2 (Periods.New 3 4) (Periods.New 5 6) 0
     { cell := none, flag := true, mtx := some 0, clock := 2,
       threads := upd (fun _ => none) 0 (some (.bProduce 1)) } 1 1 7 rfl⟩

theorem validate_some_cases (pp : Periods) (e : renewErr)
    (h : pp.Validate = some e) :
    e = .errDefaultPeriodNegative pp.Default ∨
    e = .errErrorPeriodNegative pp.Error := by
  unfold Periods.Validate at h
  by_cases h1 : pp.Default < 0
  · rw [if_pos h1] at h; cases h; exact Or.inl rfl
  · rw [if_neg h1] at h
    by_cases h2 : pp.Error < 0
    · rw [if_pos h2] at h; cases h; exact Or.inr rfl
    · rw [if_neg h2] at h; cases h

/-- C10: `OnDemandNoCtx` and `SoftHardNoCtx` substitute the non-nil
background context, so they never fail with the nil-context error; their
only possible construction errors are the nil-producer and
period-validation errors of the underlying constructor. -/
theorem C10_noctx_constructors :
    (∀ produce pp, OnDemandNoCtx produce pp =
        OnDemand (some background) produce pp) ∧
    (∀ produce pp, OnDemandNoCtx produce pp ≠ .error .errContextNil) ∧
    (∀ produce pp e, OnDemandNoCtx produce pp = .error e →
        e = .errProduceNil ∨ (∃ d, e = .errDefaultPeriodNegative d) ∨
        (∃ d, e = .errErrorPeriodNegative d)) ∧
    (∀ produce soft hard, SoftHardNoCtx produce soft hard =
        SoftHard (some background) produce soft hard) ∧
    (∀ produce soft hard,
        SoftHardNoCtx produce soft hard ≠ .error .errContextNil) ∧
    (∀ produce soft hard e, SoftHardNoCtx produce soft hard = .error e →
        e = .errProduceNil ∨ (∃ d, e = .errDefaultPeriodNegative d) ∨
        (∃ d, e = .errErrorPeriodNegative d) ∨
        (∃ dh ds, e = .errDefaultHardLessThanSoft dh ds) ∨
        (∃ dh ds, e = .errErrorHardLessThanSoft dh ds)) := by
  have hOD : ∀ produce pp e, OnDemandNoCtx produce pp = .error e →
      e = .errProduceNil ∨ (∃ d, e = .errDefaultPeriodNegative d) ∨
      (∃ d, e = .errErrorPeriodNegative d) := by
    intro produce pp e h
    cases produce with
    | none =>
      cases h
      exact Or.inl rfl
    | some p =>
      replace h : (match pp.Validate with
        | some e2 => (Except.error e2 : Except renewErr onDemandInst)
        | none => Except.ok ⟨background, p, pp⟩) = Except.error e := h
      cases hval : pp.Validate with
      | none => rw [hval] at h; cases h
      | some e2 =>
        rw [hval] at h
        cases h
        cases validate_some_cases pp e hval with
        | inl h2 => exact Or.inr (Or.inl ⟨pp.Default, h2⟩)
        | inr h2 => exact Or.inr (Or.inr ⟨pp.Error, h2⟩)
  have hSH : ∀ produce soft hard e,
      SoftHardNoCtx produce soft hard = .error e →
      e = .errProduceNil ∨ (∃ d, e = .errDefaultPeriodNegative d) ∨
      (∃ d, e = .errErrorPeriodNegative d) ∨
      (∃ dh ds, e = .errDefaultHardLessThanSoft dh ds) ∨
      (∃ dh ds, e = .errErrorHardLessThanSoft dh ds) := by
    intro produce soft hard e h
    cases produce with
    | none =>
      cases h
      exact Or.inl rfl
    | some p =>
      replace h : (match soft.Validate with
        | some e2 => (Except.error e2 : Except renewErr softHardInst)
        | none =>
          if hard.Default < soft.Default then
            Except.error (.errDefaultHardLessThanSoft hard.Default soft.Default)
          else if hard.Error < soft.Error then
            Except.error (.errErrorHardLessThanSoft hard.Error soft.Error)
          else Except.ok ⟨background, p, soft, hard⟩) = Except.error e := h
      cases hval : soft.Validate with
      | some e2 =>
        rw [hval] at h
        cases h
        cases validate_some_cases soft e hval with
        | inl h2 => exact Or.inr (Or.inl ⟨soft.Default, h2⟩)
        | inr h2 => exact Or.inr (Or.inr (Or.inl ⟨soft.Error, h2⟩))
      | none =>
        rw [hval] at h
        replace h : (if hard.Default < soft.Default then
            Except.error (.errDefaultHardLessThanSoft hard.Default soft.Default)
          else if hard.Error < soft.Error then
            Except.error (.errErrorHardLessThanSoft hard.Error soft.Error)
          else (Except.ok ⟨background, p, soft, hard⟩ :
            Except renewErr softHardInst)) = Except.error e := h
        by_cases hd : hard.Default < soft.Default
        · rw [if_pos hd] at h
          cases h
          exact Or.inr (Or.inr (Or.inr (Or.inl
            ⟨hard.Default, soft.Default, rfl⟩)))
        · rw [if_neg hd] at h
          by_cases he : hard.Error < soft.Error
          · rw [if_pos he] at h
            cases h
            exact Or.inr (Or.inr (Or.inr (Or.inr
              ⟨hard.Error, soft.Error, rfl⟩)))
          · rw [if_neg he] at h
            cases h
  refine ⟨fun produce pp => rfl, ?_, hOD, fun produce soft hard => rfl, ?_, hSH⟩
  · intro produce pp h
    cases hOD produce pp _ h with
    | inl h2 => cases h2
    | inr h2 =>
      cases h2 with
      | inl h3 => obtain ⟨d, h4⟩ := h3; cases h4
      | inr h3 => obtain ⟨d, h4⟩ := h3; cases h4
  · intro produce soft hard h
    rcases hSH produce soft hard _ h with h2 | ⟨d, h2⟩ | ⟨d, h2⟩ |
      ⟨dh, ds, h2⟩ | ⟨dh, ds, h2⟩ <;> cases h2

theorem C10_noctx_constructors_witness :
    (OnDemandNoCtx none (Periods.New 3 4) ≠ .error .errContextNil) ∧
    ((.errProduceNil : renewErr) = .errProduceNil ∨
      (∃ d, (.errProduceNil : renewErr) = .errDefaultPeriodNegative d) ∨
      (∃ d, (.errProduceNil : renewErr) = .errErrorPeriodNegative d)) ∧
    (SoftHardNoCtx none (Periods.New 3 4) (Periods.New 5 6) ≠
        .error .errContextNil) :=
  ⟨C10_noctx_constructors.2.1 none (Periods.New 3 4),
   C10_noctx_constructors.2.2.1 none (Periods.New 3 4) .errProduceNil rfl,
   C10_noctx_constructors.2.2.2.2.1 none (Periods.New 3 4) (Periods.New 5 6)⟩

/-! ### Concrete executions used by the witnesses -/

/-- A concrete on-demand execution: one caller walks the whole slow path
and is currently producing. -/
theorem odTrace_producing : ∃ s : ODState,
    ODReach (Periods.New 3 4) s ∧ s.threads 0 = some .producing := by
  have h0 : ODReach (Periods.New 3 4)
      { cell := {}, readers := 0, writer := none, clock := 0,
        threads := fun _ => none } :=
    .init _ ⟨rfl, rfl, rfl, fun t => rfl⟩
  have h1 := ODReach.step _ _ h0 (.thread 0 _ _ (.arrive _ rfl))
  have h2 := ODReach.step _ _ h1 (.thread 0 _ _ (.rlock _ rfl rfl))
  have h3 := ODReach.step _ _ h2 (.thread 0 _ _ (.rcheckMiss _ rfl rfl))
  have h4 := ODReach.step _ _ h3 (.thread 0 _ _ (.wlock _ rfl rfl rfl))
  have h5 := ODReach.step _ _ h4 (.thread 0 _ _ (.wcheckMiss _ rfl rfl))
  exact ⟨_, h5, rfl⟩

/-- A concrete soft/hard execution: one caller walks the blocking path of
an empty cache and is currently producing inline. -/
theorem shTrace_bProduce : ∃ s : SHState,
    SHReach (Periods.New 3 4) (Periods.New 5 6) s ∧
    s.threads 0 = some (.bProduce 0) := by
  have h0 : SHReach (Periods.New 3 4) (Periods.New 5 6)
      { cell := none, flag := false, mtx := none, clock := 0,
        threads := fun _ => none } :=
    .init _ ⟨rfl, rfl, rfl, fun t => rfl⟩
  have h1 := SHReach.step _ _ h0 (.thread 0 _ _ (.arrive _ rfl))
  have h2 := SHReach.step _ _ h1 (.thread 0 _ _ (.getNoRes _ rfl rfl))
  have h3 := SHReach.step _ _ h2 (.thread 0 _ _ (.bLockAcq _ 0 rfl rfl))
  have h4 := SHReach.step _ _ h3 (.thread 0 _ _ (.bCheckNone _ 0 rfl rfl))
  have h5 := SHReach.step _ _ h4 (.thread 0 _ _ (.bCASWin _ 0 rfl rfl))
  have h6 := SHReach.step _ _ h5 (.thread 0 _ _ (.bRecheckNone _ 0 rfl rfl))
  exact ⟨_, h6, rfl⟩

/-- The same execution carried to completion: the blocking caller has
produced `(some 1, none)` at clock 0, stored it and returned it. -/
theorem shTrace_retB : ∃ s : SHState,
    SHReach (Periods.New 3 4) (Periods.New 5 6) s ∧
    s.threads 0 =
      some (.retB 0 { val := some 1, err := none, moment := some 0 }) ∧
    s.cell = some { val := some 1, err := none, moment := some 0 } ∧
    s.flag = false ∧ s.mtx = none ∧ s.clock = 0 := by
  have h0 : SHReach (Periods.New 3 4) (Periods.New 5 6)
      { cell := none, flag := false, mtx := none, clock := 0,
        threads := fun _ => none } :=
    .init _ ⟨rfl, rfl, rfl, fun t => rfl⟩
  have h1 := SHReach.step _ _ h0 (.thread 0 _ _ (.arrive _ rfl))
  have h2 := SHReach.step _ _ h1 (.thread 0 _ _ (.getNoRes _ rfl rfl))
  have h3 := SHReach.step _ _ h2 (.thread 0 _ _ (.bLockAcq _ 0 rfl rfl))
  have h4 := SHReach.step _ _ h3 (.thread 0 _ _ (.bCheckNone _ 0 rfl rfl))
  have h5 := SHReach.step _ _ h4 (.thread 0 _ _ (.bCASWin _ 0 rfl rfl))
  have h6 := SHReach.step _ _ h5 (.thread 0 _ _ (.bRecheckNone _ 0 rfl rfl))
  have h7 := SHReach.step _ _ h6
    (.thread 0 _ _ (.bStore _ 0 (some 1) none rfl))
  have h8 := SHReach.step _ _ h7 (.thread 0 _ _ (.bFinishStep _ 0 _ rfl))
  exact ⟨_, h8, rfl, rfl, rfl, rfl, rfl⟩

/-- C1: for every strategy instance (on-demand or soft/hard) and every
interleaving of concurrent `Get` calls, at most one invocation of the
production function is in flight at any time.  On-demand: production
happens at `producing`, guarded by the exclusive write lock.  Soft/hard:
production happens at `bProduce` (inline) or `taskProduce` (detached
task), both inside the REFRESHING-flag ownership region. -/
theorem C1_at_most_one_producer :
    (∀ (pp : Periods) (s : ODState), ODReach pp s →
        ∀ t u, s.threads t = some .producing →
          s.threads u = some .producing → t = u) ∧
    (∀ (soft hard : Periods) (s : SHState), SHReach soft hard s →
        ∀ t u p q, s.threads t = some p → s.threads u = some q →
          (p = .taskProduce ∨ ∃ t0, p = .bProduce t0) →
          (q = .taskProduce ∨ ∃ t0, q = .bProduce t0) → t = u) := by
  constructor
  · intro pp s h t u ht hu
    have hexcl := odExcl_invariant pp s h
    have h1 := hexcl t (Or.inr ht)
    have h2 := hexcl u (Or.inr hu)
    rw [h1] at h2
    exact Option.some.inj h2
  · intro soft hard s h t u p q ht hu hp hq
    have hregion := (shRegion_invariant soft hard s h).1
    have hrp : inRegion p = true := by
      rcases hp with rfl | ⟨t0, rfl⟩ <;> rfl
    have hrq : inRegion q = true := by
      rcases hq with rfl | ⟨t0, rfl⟩ <;> rfl
    exact hregion t u p q ht hu hrp hrq

theorem C1_at_most_one_producer_witness :
    (∃ s : ODState, ODReach (Periods.New 3 4) s ∧
      s.threads 0 = some .producing ∧
      ∀ t u, s.threads t = some .producing →
        s.threads u = some .producing → t = u) ∧
    (∃ s : SHState, SHReach (Periods.New 3 4) (Periods.New 5 6) s ∧
      s.threads 0 = some (.bProduce 0) ∧
      ∀ t u p q, s.threads t = some p → s.threads u = some q →
        (p = .taskProduce ∨ ∃ t0, p = .bProduce t0) →
        (q = .taskProduce ∨ ∃ t0, q = .bProduce t0) → t = u) := by
  constructor
  · obtain ⟨s, hs, hpc⟩ := odTrace_producing
    exact ⟨s, hs, hpc, C1_at_most_one_producer.1 (Periods.New 3 4) s hs⟩
  · obtain ⟨s, hs, hpc⟩ := shTrace_bProduce
    exact ⟨s, hs, hpc,
      C1_at_most_one_producer.2 (Periods.New 3 4) (Periods.New 5 6) s hs⟩

/-- C2: a soft/hard `Get` that finds the cached result expired past the
hard deadline (or finds no result yet) takes the blocking path; whatever
such a call returns carries a production moment no earlier than the
clock `t0` of its entry step, so it never returns the hard-expired cached
result (any result hard-expired at `t0` under a positive hard period was
produced strictly before `t0`). -/
theorem C2_blocking_path_freshness (soft hard : Periods)
    (hsd : soft.Default ≤ hard.Default) (hse : soft.Error ≤ hard.Error)
    (s : SHState) (h : SHReach soft hard s) (t : TId) (t0 : Nat)
    (res : result) (hret : s.threads t = some (.retB t0 res)) :
    (∃ m, res.moment = some m ∧ t0 ≤ m) ∧
    (∀ (r0 : result) (m0 : Nat), r0.moment = some m0 →
        r0.isValidAt t0 hard = false → 0 < hard.Period r0.err → res ≠ r0) := by
  have hfresh : ∃ m, res.moment = some m ∧ t0 ≤ m :=
    shFresh_invariant soft hard hsd hse s h t _ hret
  refine ⟨hfresh, ?_⟩
  rintro r0 m0 hm0 hstale hpos rfl
  obtain ⟨m, hm, hle⟩ := hfresh
  rw [hm0] at hm
  cases hm
  simp only [result.isValidAt, hm0, decide_eq_false_iff_not, not_lt] at hstale
  have hc : (t0 : Int) ≤ (m0 : Int) := by exact_mod_cast hle
  linarith

theorem C2_blocking_path_freshness_witness :
    ((Periods.New 3 4).Default ≤ (Periods.New 5 6).Default) ∧
    ((Periods.New 3 4).Error ≤ (Periods.New 5 6).Error) ∧
    (∃ s : SHState, SHReach (Periods.New 3 4) (Periods.New 5 6) s ∧
      s.threads 0 =
        some (.retB 0 { val := some 1, err := none, moment := some 0 }) ∧
      ∃ m, ({ val := some 1, err := none, moment := some 0 } :
        result).moment = some m ∧ 0 ≤ m) := by
  refine ⟨by decide, by decide, ?_⟩
  obtain ⟨s, hs, hpc, -⟩ := shTrace_retB
  exact ⟨s, hs, hpc,
    (C2_blocking_path_freshness (Periods.New 3 4) (Periods.New 5 6)
      (by decide) (by decide) s hs 0 0 _ hpc).1⟩

/-- C5: `onDemand.Get` follows the double-checked algorithm: under the
shared lock it returns the cached result if valid now; otherwise under
the exclusive lock it re-checks validity and returns the cached result if
a writer refreshed it meanwhile; otherwise it produces while holding the
exclusive lock, overwrites the stored result as one unit, and returns the
new result. -/
theorem C5_onDemand_double_checked (pp : Periods) :
    (∀ (s s' : ODState) (t : TId), ODStep pp t s s' →
        s.threads t = some .rlocked →
        (s.cell.isValidAt s.clock pp = true →
          s' = { s with readers := s.readers - 1,
                        threads := upd s.threads t (some (.ret s.cell)) }) ∧
        (s.cell.isValidAt s.clock pp = false →
          s' = { s with readers := s.readers - 1,
                        threads := upd s.threads t (some .relock) })) ∧
    (∀ (s s' : ODState) (t : TId), ODStep pp t s s' →
        s.threads t = some .wlocked →
        (s.cell.isValidAt s.clock pp = true →
          s' = { s with writer := none,
                        threads := upd s.threads t (some (.ret s.cell)) }) ∧
        (s.cell.isValidAt s.clock pp = false →
          s' = { s with threads := upd s.threads t (some .producing) })) ∧
    (∀ (s s' : ODState) (t : TId), ODStep pp t s s' →
        s.threads t = some .producing →
        ∃ v e,
          s' = { s with cell := produceResult s.clock v e,
                        writer := none,
                        threads := upd s.threads t
                          (some (.ret (produceResult s.clock v e))) }) ∧
    (∀ (s : ODState) (t : TId), ODReach pp s →
        s.threads t = some .producing → s.writer = some t) := by
  refine ⟨?_, ?_, ?_, ?_⟩
  · intro s s' t hstep hpc
    cases hstep
    case rcheckHit hu hv =>
      refine ⟨fun _ => rfl, fun hfalse => ?_⟩
      rw [hv] at hfalse; cases hfalse
    case rcheckMiss hu hv =>
      refine ⟨fun htrue => ?_, fun _ => rfl⟩
      rw [hv] at htrue; cases htrue
    all_goals (exfalso; simp_all)
  · intro s s' t hstep hpc
    cases hstep
    case wcheckHit hu hv =>
      refine ⟨fun _ => rfl, fun hfalse => ?_⟩
      rw [hv] at hfalse; cases hfalse
    case wcheckMiss hu hv =>
      refine ⟨fun htrue => ?_, fun _ => rfl⟩
      rw [hv] at htrue; cases htrue
    all_goals (exfalso; simp_all)
  · intro s s' t hstep hpc
    cases hstep
    case produceDone v e hu => exact ⟨v, e, rfl⟩
    all_goals (exfalso; simp_all)
  · intro s t hreach hpc
    exact odExcl_invariant pp s hreach t (Or.inr hpc)

/-- Concrete on-demand state with one producing thread, for the C5
witness. -/
def c5s : ODState :=
  { cell := {}, readers := 0, writer := some 0, clock := 0,
    threads := upd (fun _ => none) 0 (some .producing) }

theorem C5_onDemand_double_checked_witness :
    (∃ s : ODState, ODReach (Periods.New 3 4) s ∧
      s.threads 0 = some .producing ∧ s.writer = some 0) ∧
    (∃ v e, ({ c5s with cell := produceResult 0 (some 1) none,
                          writer := none,
                          threads := upd c5s.threads 0
                            (some (.ret (produceResult 0 (some 1) none))) } :
        ODState) =
      { c5s with cell := produceResult 0 v e, writer := none,
                 threads := upd c5s.threads 0
                   (some (.ret (produceResult 0 v e))) }) := by
  constructor
  · obtain ⟨s, hs, hpc⟩ := odTrace_producing
    exact ⟨s, hs, hpc,
      (C5_onDemand_double_checked (Periods.New 3 4)).2.2.2 s 0 hs hpc⟩
  · obtain ⟨v, e, h⟩ := (C5_onDemand_double_checked (Periods.New 3 4)).2.2.1
      c5s _ 0 (ODStep.produceDone c5s (some 1) none rfl) rfl
    exact ⟨v, e, h⟩

/-- C6: a soft/hard `Get` that loads a result still soft-valid at its
entry instant returns that cached result unchanged in the same entry
step: no production, no spawned task, and the cell, flag and mutex are
all untouched (only an atomic load is performed). -/
theorem C6_soft_fresh_fast_path (soft hard : Periods) (s s' : SHState)
    (t : TId) (res : result) (hpc : s.threads t = some .getStart)
    (hcell : s.cell = some res) (hv : res.isValidAt s.clock soft = true)
    (hstep : SHStep soft hard t s s') :
    s' = { s with threads := upd s.threads t (some (.retF res)) } := by
  cases hstep
  case getFresh res2 hw hc hv2 =>
    rw [hcell] at hc
    injection hc with h
    subst h
    rfl
  all_goals (exfalso; simp_all)

/-- Concrete soft/hard state with one caller at entry and a soft-valid
cached result, for the C6 witness. -/
def c6s : SHState :=
  { cell := some { val := some 1, err := none, moment := some 0 },
    flag := false, mtx := none, clock := 0,
    threads := upd (fun _ => none) 1 (some .getStart) }

theorem C6_soft_fresh_fast_path_witness :
    ∃ s' : SHState,
      SHStep (Periods.New 3 4) (Periods.New 5 6) 1 c6s s' ∧
      s' = { c6s with threads := upd c6s.threads 1 (some (.retF
        { val := some 1, err := none, moment := some 0 })) } := by
  have hstep : SHStep (Periods.New 3 4) (Periods.New 5 6) 1 c6s
      { c6s with threads := upd c6s.threads 1 (some (.retF
        { val := some 1, err := none, moment := some 0 })) } :=
    SHStep.getFresh c6s _ rfl rfl (by decide)
  exact ⟨_, hstep,
    C6_soft_fresh_fast_path (Periods.New 3 4) (Periods.New 5 6) c6s _ 1 _
      rfl rfl (by decide) hstep⟩

/-- C7: in the within-hard zone, the winner of the IDLE→REFRESHING
compare-and-swap re-loads the result and re-verifies soft-validity at its
entry `now` before producing: if the reloaded result is soft-valid it
proceeds to reset the flag to IDLE (taking the mutex, broadcasting) and
returns without any production; otherwise it spawns a detached task and
returns the reloaded stale result; the task produces and stores the
result as one unit, then resets the flag to IDLE and broadcasts. -/
theorem C7_within_hard_cas_winner (soft hard : Periods) :
    (∀ (s s' : SHState) (t : TId) (res : result) (now : Nat),
        s.threads t = some (.midWon res now) → SHStep soft hard t s s' →
        ∃ res2, s.cell = some res2 ∧
          ((res2.isValidAt now soft = true ∧
            s' = { s with threads := upd s.threads t
                            (some (.midLock res2)) }) ∨
           (res2.isValidAt now soft = false ∧
            ∃ u, s.threads u = none ∧
              s' = { s with threads := upd (upd s.threads t
                              (some (.retF res2))) u (some .taskProduce) }))) ∧
    (∀ (s s' : SHState) (t : TId) (res : result),
        s.threads t = some (.midReset res) → SHStep soft hard t s s' →
        s' = { s with flag := false, mtx := none,
                      threads := upd s.threads t (some (.retF res)) }) ∧
    (∀ (s s' : SHState) (t : TId),
        s.threads t = some .taskProduce → SHStep soft hard t s s' →
        ∃ v e,
          s' = { s with cell := some (produceResult s.clock v e),
                        threads := upd s.threads t (some .taskStoreDone) }) ∧
    (∀ (s s' : SHState) (t : TId),
        s.threads t = some .taskReset → SHStep soft hard t s s' →
        s' = { s with flag := false, mtx := none,
                      threads := upd s.threads t (some .taskDone) }) := by
  refine ⟨?_, ?_, ?_, ?_⟩
  · intro s s' t res now hpc hstep
    cases hstep
    case midWonFresh res' res2 now' hw hc hv =>
      rw [hpc] at hw
      injection hw with h
      injection h with h1 h2
      subst h1; subst h2
      exact ⟨res2, hc, Or.inl ⟨hv, rfl⟩⟩
    case midWonStale res' res2 now' u hw hc hv hu =>
      rw [hpc] at hw
      injection hw with h
      injection h with h1 h2
      subst h1; subst h2
      exact ⟨res2, hc, Or.inr ⟨hv, u, hu, rfl⟩⟩
    all_goals (exfalso; simp_all)
  · intro s s' t res hpc hstep
    cases hstep
    case midResetStep res' hw =>
      rw [hpc] at hw
      injection hw with h
      injection h with h1
      subst h1
      rfl
    all_goals (exfalso; simp_all)
  · intro s s' t hpc hstep
    exact shStep_taskProduce_inv soft hard t s s' hpc hstep
  · intro s s' t hpc hstep
    cases hstep
    case taskResetStep hw => rfl
    all_goals (exfalso; simp_all)

/-- Concrete soft/hard state with a CAS winner holding the flag over a
stale result, for the C7 witness. -/
def c7s : SHState :=
  { cell := some { val := some 1, err := none, moment := some 0 },
    flag := true, mtx := none, clock := 4,
    threads := upd (fun _ => none) 1 (some (.midWon
      { val := some 1, err := none, moment := some 0 } 4)) }

theorem C7_within_hard_cas_winner_witness :
    ∃ res2, c7s.cell = some res2 ∧
      ((res2.isValidAt 4 (Periods.New 3 4) = true ∧
        ({ c7s with threads := upd (upd c7s.threads 1 (some (.retF
                      { val := some 1, err := none, moment := some 0 })))
                      2 (some .taskProduce) } : SHState) =
          { c7s with threads := upd c7s.threads 1 (some (.midLock res2)) }) ∨
       (res2.isValidAt 4 (Periods.New 3 4) = false ∧
        ∃ u, c7s.threads u = none ∧
          ({ c7s with threads := upd (upd c7s.threads 1 (some (.retF
                        { val := some 1, err := none, moment := some 0 })))
                        2 (some .taskProduce) } : SHState) =
            { c7s with threads := upd (upd c7s.threads 1
                         (some (.retF res2))) u (some .taskProduce) })) :=
  (C7_within_hard_cas_winner (Periods.New 3 4) (Periods.New 5 6)).1 c7s _ 1
    { val := some 1, err := none, moment := some 0 } 4 rfl
    (SHStep.midWonStale c7s _ _ 4 2 rfl rfl (by decide) rfl)
